import Mathlib

/-!
Verification of the Midnight Vault progress/unlock core.

Shallow embedding of `src/puzzles.js`, `src/db.js` and the route handlers of
`src/server.js` that the claims refer to.  JavaScript strings are modelled as
Lean `String`; the SQLite tables of `db.js` are modelled as lists inside an
explicit `DbState` record, and every mutating operation is modelled as a pure
function returning the updated state.
-/

namespace MidnightVault

/-! ## Puzzle catalog (`src/puzzles.js`) -/

/-- The four branches `F`, `M`, `D`, `B` of the game. -/
inductive Branch where
  | F | M | D | B
deriving DecidableEq, Repr

instance : Fintype Branch where
  elems := ⟨[Branch.F, Branch.M, Branch.D, Branch.B], by decide⟩
  complete := by intro b; cases b <;> decide

/-- `BRANCH_ORDER` of `puzzles.js`: canonical branch order for digit concatenation. -/
def BRANCH_ORDER : List Branch := [Branch.F, Branch.M, Branch.D, Branch.B]

/-- One entry of the `BRANCHES` object in `puzzles.js`. -/
structure BranchMeta where
  name : String
  color : String
  digits : List Nat
deriving DecidableEq, Repr

/-- The `BRANCHES` object of `puzzles.js`. -/
def BRANCHES : Branch → BranchMeta
  | Branch.F => { name := "FOOD", color := "#e74c3c", digits := [4, 1] }
  | Branch.M => { name := "MUSIC", color := "#9b59b6", digits := [8, 2] }
  | Branch.D => { name := "DECOR", color := "#3498db", digits := [0, 9] }
  | Branch.B => { name := "BOOKS", color := "#27ae60", digits := [5, 3] }

/-- `PERMUTATION_KEY` constant of `puzzles.js`. -/
def PERMUTATION_KEY : String := "26153478"

/-- An entry of the puzzle catalog. -/
structure Puzzle where
  id : Nat
  branch : Branch
  step : Nat
  title : String
  location_hint : String
  prompt : String
  answer : String
deriving DecidableEq, Repr

/-- The `PUZZULAR` catalog array of `puzzles.js` (exported as `PUZZLES`). -/
def PUZZULAR : List Puzzle := [
  { id := 1, branch := Branch.F, step := 1, title := "Food Puzzle 1",
    location_hint := "Fridge",
    prompt := "Caesar cipher +3: Decode \"SODBOLVW\"", answer := "PLAYLIST" },
  { id := 2, branch := Branch.F, step := 2, title := "Food Puzzle 2",
    location_hint := "Snack Table",
    prompt := "Read the acrostic on the card nearby. The first letters of each line spell a 4-letter word.",
    answer := "FOOD" },
  { id := 3, branch := Branch.F, step := 3, title := "Food Puzzle 3",
    location_hint := "Drink Cooler",
    prompt := "Riddle: \"Twelve at midnight, sweet and round, a Spanish tradition that astounds.\"",
    answer := "GRAPES" },
  { id := 4, branch := Branch.M, step := 1, title := "Music Puzzle 1",
    location_hint := "Speaker",
    prompt := "What part of a song repeats the most?", answer := "CHORUS" },
  { id := 5, branch := Branch.M, step := 2, title := "Music Puzzle 2",
    location_hint := "TV Remote",
    prompt := "Unscramble: OPMET", answer := "TEMPO" },
  { id := 6, branch := Branch.M, step := 3, title := "Music Puzzle 3",
    location_hint := "Playlist QR",
    prompt := "Look at the playlist posted nearby. The first letters of the first 6 song titles spell what word?",
    answer := "COUNTDOWN" },
  { id := 7, branch := Branch.D, step := 1, title := "Decor Puzzle 1",
    location_hint := "Garland Tag",
    prompt := "Unscramble: RAELGND", answer := "GARLAND" },
  { id := 8, branch := Branch.D, step := 2, title := "Decor Puzzle 2",
    location_hint := "Balloons",
    prompt := "Rebus puzzle: What do you get when party poppers go off?", answer := "CONFETTI" },
  { id := 9, branch := Branch.D, step := 3, title := "Decor Puzzle 3",
    location_hint := "Mantle / Decor Shelf",
    prompt := "Party staple that floats and pops (singular)", answer := "BALLOON" },
  { id := 10, branch := Branch.B, step := 1, title := "Books Puzzle 1",
    location_hint := "Bookshelf Label \"INDEX\"",
    prompt := "What do you call the back-of-book list used to find topics?", answer := "INDEX" },
  { id := 11, branch := Branch.B, step := 2, title := "Books Puzzle 2",
    location_hint := "Bookmark in a Book",
    prompt := "A book is divided into these numbered sections.", answer := "CHAPTER" },
  { id := 12, branch := Branch.B, step := 3, title := "Books Puzzle 3",
    location_hint := "Spine-Facing Shelf",
    prompt := "The part of a book you see when it sits on a shelf.", answer := "SPINE" }
]

/-- Whitespace predicate used by `String.prototype.trim`.  (JS trims a few more
Unicode space characters; none of them uppercases into `A`–`Z0`–`9`, so the
choice is invisible to `normalizeAnswer`.) -/
def jsIsSpace (c : Char) : Bool := c.isWhitespace

/-- `input.trim()` on the character list of a string. -/
def jsTrimChars (l : List Char) : List Char :=
  ((l.dropWhile jsIsSpace).reverse.dropWhile jsIsSpace).reverse

/-- `input.trim()`. -/
def jsTrim (s : String) : String := String.mk (jsTrimChars s.data)

/-- Characters kept by the regex replace `[^A-Z0-9] -> ''`. -/
def isAnswerChar (c : Char) : Bool := ('A' ≤ c && c ≤ 'Z') || ('0' ≤ c && c ≤ '9')

/-- `x.toUpperCase().replace(/[^A-Z0-9]/g, '')` on a character list. -/
def jsUpperStrip (l : List Char) : List Char := (l.map Char.toUpper).filter isAnswerChar

/-- `normalizeAnswer` of `puzzles.js`:
`input.trim().toUpperCase().replace(/[^A-Z0-9]/g, '')`. -/
def normalizeAnswer (input : String) : String :=
  String.mk (jsUpperStrip (jsTrimChars input.data))

/-- The inline normalization applied to override answers inside
`getPuzzleWithOverrides` (`puzzles.js` line 265):
`override.answer.toUpperCase().replace(/[^A-Z0-9]/g, '')` — no `trim()`. -/
def readNormalizeAnswer (a : String) : String := String.mk (jsUpperStrip a.data)

/-- `getPuzzle` of `puzzles.js`. -/
def getPuzzle (id : Nat) : Option Puzzle := PUZZULAR.find? (fun p => p.id == id)

/-- `getPuzzleByBranchStep` of `puzzles.js`. -/
def getPuzzleByBranchStep (branch : Branch) (step : Nat) : Option Puzzle :=
  PUZZULAR.find? (fun p => p.branch == branch && p.step == step)

/-- `checkAnswer` of `puzzles.js`. -/
def checkAnswer (puzzleId : Nat) (userAnswer : String) : Bool :=
  match getPuzzle puzzleId with
  | none => false
  | some puzzle => normalizeAnswer userAnswer == normalizeAnswer puzzle.answer

/-- `digits.join('')` for the digit arrays of `BRANCHES`. -/
def digitsJoin (ds : List Nat) : String := ds.foldl (fun acc d => acc ++ toString d) ""

/-- `buildDigitsString` of `puzzles.js`: walk `BRANCH_ORDER` and append the
2-digit sequence of every branch contained in `completedBranches`. -/
def buildDigitsString (completedBranches : List Branch) : String :=
  BRANCH_ORDER.foldl
    (fun digits branch =>
      if completedBranches.contains branch then digits ++ digitsJoin (BRANCHES branch).digits
      else digits) ""

/-- `digits[idx]` for a JS (possibly negative) index: `none` models `undefined`. -/
def jsCharAt (s : String) (i : Int) : Option Char :=
  if i < 0 then none else s.data.get? i.toNat

/-- `parseInt(pos, 10) - 1` for a single key character; `none` models `NaN`
(non-digit character). -/
def permIndex (c : Char) : Option Int :=
  if c.isDigit then some ((c.toNat : Int) - ('0'.toNat : Int) - 1) else none

/-- `result += digits[idx]`: appending `undefined` to a string in JS appends
the text `"undefined"`. -/
def jsAppendOptChar (acc : String) : Option Char → String
  | some c => acc.push c
  | none => acc ++ "undefined"

/-- `applyPermutation` of `puzzles.js` (the second argument defaults to
`PERMUTATION_KEY` exactly as in the source). -/
def applyPermutation (digits : String) (perm : String := PERMUTATION_KEY) : Option String :=
  if digits.length ≠ 8 ∨ perm.length ≠ 8 then none
  else some (perm.data.foldl
    (fun result pos => jsAppendOptChar result ((permIndex pos).bind (jsCharAt digits))) "")

/-- `s.slice(0, n)` for the strings produced here (all ASCII). -/
def jsSlice (s : String) (n : Nat) : String := String.mk (s.data.take n)

/-- Return value of `computeVaultCode`. -/
structure VaultCodeResult where
  digits : String
  permuted : Option String
  vaultCode : Option String
deriving DecidableEq, Repr

/-- `computeVaultCode` of `puzzles.js`. -/
def computeVaultCode (completedBranches : List Branch) : VaultCodeResult :=
  let digits := buildDigitsString completedBranches
  if digits.length < 8 then { digits := digits, permuted := none, vaultCode := none }
  else
    let permuted := applyPermutation digits
    { digits := digits, permuted := permuted,
      vaultCode := permuted.map (fun p => jsSlice p 6) }

/-! ## Database state (`src/db.js`)

The SQLite tables are modelled as lists: `solves` and `globalKeys` keep
insertion order (append-only), `globalValues` and `overrides` are keyed
association lists.  Every mutating `db.js` function becomes a pure function
`DbState → … → DbState`. -/

/-- One row of the `puzzle_overrides` table (`NULL` columns are `none`). -/
structure OverrideRow where
  location_hint : Option String
  prompt : Option String
  answer : Option String
deriving DecidableEq, Repr

/-- The durable store of `db.js`. -/
structure DbState where
  participants : List (String × String)
  solves : List (String × Nat)
  globalKeys : List String
  globalValues : List (String × String)
  overrides : List (Nat × OverrideRow)
deriving DecidableEq, Repr

/-- State right after `initSchema()`: empty tables, the permutation key seeded
with its default (`INSERT OR IGNORE … ('perm', '26153478')`). -/
def initialState : DbState :=
  { participants := [], solves := [], globalKeys := [],
    globalValues := [("perm", "26153478")], overrides := [] }

/-- Return value of `recordSolve`. -/
structure SolveResult where
  success : Bool
  isFirst : Bool
  alreadySolved : Bool
deriving DecidableEq, Repr

/-- `recordSolve` of `db.js`: check-then-insert on the `solves` table. -/
def recordSolve (s : DbState) (participantId : String) (puzzleId : Nat) :
    SolveResult × DbState :=
  if s.solves.contains (participantId, puzzleId) then
    ({ success := false, isFirst := false, alreadySolved := true }, s)
  else
    let isFirst := !(s.solves.any (fun row => row.2 == puzzleId))
    ({ success := true, isFirst := isFirst, alreadySolved := false },
      { s with solves := s.solves ++ [(participantId, puzzleId)] })

/-- `hasParticipantSolved` of `db.js`. -/
def hasParticipantSolved (s : DbState) (participantId : String) (puzzleId : Nat) : Bool :=
  s.solves.contains (participantId, puzzleId)

/-- `isPuzzleSolvedGlobally` of `db.js`. -/
def isPuzzleSolvedGlobally (s : DbState) (puzzleId : Nat) : Bool :=
  s.solves.any (fun row => row.2 == puzzleId)

/-- `getGlobalSolvedPuzzleIds` of `db.js`:
`SELECT DISTINCT puzzle_id FROM solves ORDER BY puzzle_id`. -/
def getGlobalSolvedPuzzleIds (s : DbState) : List Nat :=
  ((s.solves.map Prod.snd).dedup).mergeSort (fun a b => a ≤ b)

/-- `setGlobalKey` of `db.js`: `INSERT OR IGNORE INTO global_keys`. -/
def setGlobalKey (s : DbState) (key : String) : DbState :=
  if s.globalKeys.contains key then s
  else { s with globalKeys := s.globalKeys ++ [key] }

/-- `hasGlobalKey` of `db.js`. -/
def hasGlobalKey (s : DbState) (key : String) : Bool :=
  s.globalKeys.contains key

/-- The SQL pattern `key LIKE '%_DONE'`: `_` is a one-character wildcard, so
the pattern matches any key of length at least 5 whose last four characters
are `DONE`. -/
def likeDoneKey (k : String) : Bool :=
  5 ≤ k.data.length && k.data.drop (k.data.length - 4) == ['D', 'O', 'N', 'E']

/-- `countDoneKeys` of `db.js`. -/
def countDoneKeys (s : DbState) : Nat :=
  (s.globalKeys.filter likeDoneKey).length

/-- The letter of a branch, as interpolated into `${branch}_DONE`. -/
def branchLetter : Branch → String
  | Branch.F => "F"
  | Branch.M => "M"
  | Branch.D => "D"
  | Branch.B => "B"

/-- The completion-flag key `${branch}_DONE` used by `server.js`. -/
def branchDoneKey (b : Branch) : String := branchLetter b ++ "_DONE"

/-- `getCompletedBranches` of `db.js`: keys matching `LIKE '%_DONE'` mapped
through `key.replace('_DONE', '')`.  The only keys the application ever
inserts are the four `${branch}_DONE` keys, on which the SQL filter plus the
`replace` yield exactly the branch letter; the model parses the key back to
its `Branch`. -/
def getCompletedBranches (s : DbState) : List Branch :=
  s.globalKeys.filterMap (fun k => BRANCH_ORDER.find? (fun b => branchDoneKey b == k))

/-- `setGlobalValue` of `db.js` (SQL upsert on `global_values`). -/
def setGlobalValue (s : DbState) (name value : String) : DbState :=
  if (s.globalValues.find? (fun nv => nv.1 == name)).isSome then
    { s with globalValues :=
        s.globalValues.map (fun nv => if nv.1 == name then (nv.1, value) else nv) }
  else { s with globalValues := s.globalValues ++ [(name, value)] }

/-- `getGlobalValue` of `db.js`. -/
def getGlobalValue (s : DbState) (name : String) : Option String :=
  (s.globalValues.find? (fun nv => nv.1 == name)).map Prod.snd

/-- JS `opt || dflt` on an optional string: a `NULL` (absent) value or an
empty string is falsy and falls back to the default. -/
def jsOrString : Option String → String → String
  | some v, dflt => if v == "" then dflt else v
  | none, dflt => dflt

/-- `getPermutationKey` of `db.js`: `getGlobalValue('perm') || '26153478'` —
a stored empty string is falsy and also yields the default. -/
def getPermutationKey (s : DbState) : String :=
  jsOrString (getGlobalValue s "perm") "26153478"

/-- `resetAllData` of `db.js`: delete `solves`, `participants`, `global_keys`
and every `global_values` row except `perm` (`puzzle_overrides` is untouched). -/
def resetAllData (s : DbState) : DbState :=
  { participants := [], solves := [], globalKeys := [],
    globalValues := s.globalValues.filter (fun nv => nv.1 == "perm"),
    overrides := s.overrides }

/-- `getPuzzleOverride` of `db.js`. -/
def getPuzzleOverride (s : DbState) (puzzleId : Nat) : Option OverrideRow :=
  (s.overrides.find? (fun o => o.1 == puzzleId)).map Prod.snd

/-- `setPuzzleOverride` of `db.js`: upsert; on conflict each column becomes
`COALESCE(new, old)`.  The answer is stored exactly as passed in — no
normalization happens on the write path. -/
def setPuzzleOverride (s : DbState) (puzzleId : Nat) (row : OverrideRow) : DbState :=
  match s.overrides.find? (fun o => o.1 == puzzleId) with
  | none => { s with overrides := s.overrides ++ [(puzzleId, row)] }
  | some old =>
      let merged : OverrideRow :=
        { location_hint := row.location_hint.orElse (fun _ => old.2.location_hint),
          prompt := row.prompt.orElse (fun _ => old.2.prompt),
          answer := row.answer.orElse (fun _ => old.2.answer) }
      { s with overrides :=
          s.overrides.map (fun o => if o.1 == puzzleId then (puzzleId, merged) else o) }

/-- `getPuzzleWithOverrides` of `puzzles.js`: the catalog entry with non-null
(and non-empty) override fields substituted; the override answer is
normalized here, at read time. -/
def getPuzzleWithOverrides (id : Nat) (s : DbState) : Option Puzzle :=
  match getPuzzle id with
  | none => none
  | some base =>
    match getPuzzleOverride s id with
    | none => some base
    | some ov => some { base with
        location_hint := jsOrString ov.location_hint base.location_hint,
        prompt := jsOrString ov.prompt base.prompt,
        answer := match ov.answer with
          | some a => if a == "" then base.answer else readNormalizeAnswer a
          | none => base.answer }

/-! ## Route handlers (`src/server.js`)

Only the progress/unlock logic is modelled; the HTML around it is view-layer.
-/

/-- Default of the `VAULT_CODE` environment variable. -/
def VAULT_CODE : String := "194082"

/-- The prerequisite check of `GET /p/:id` (`server.js` lines 253–264):
`unlocked` is false when the puzzle has a step above 1 whose previous step in
the same branch has no global solve. -/
def puzzleUnlocked (s : DbState) (puzzle : Puzzle) : Bool :=
  if puzzle.step > 1 then
    match getPuzzleByBranchStep puzzle.branch (puzzle.step - 1) with
    | some prevPuzzle => (getGlobalSolvedPuzzleIds s).contains prevPuzzle.id
    | none => true
  else true

/-- Outcome of `POST /p/:id/submit`: which response page is rendered and the
values interpolated into it. -/
inductive SubmitOutcome where
  | notFound
  | incorrect
  | correct (result : SolveResult) (branchCompleted : Bool) (doneCount : Nat)
      (hubUnlocked metaUnlocked : Bool)
deriving DecidableEq, Repr

/-- The branch-completion block of `POST /p/:id/submit` (`server.js` lines
345–353): on the first global solve of a step-3 puzzle, set the `_DONE` flag
and report the branch-completed event, guarded by `!db.hasGlobalKey(doneKey)`. -/
def branchCompletionStep (s1 : DbState) (puzzle : Puzzle) (isFirst : Bool) :
    Bool × DbState :=
  if puzzle.step == 3 && isFirst then
    if hasGlobalKey s1 (branchDoneKey puzzle.branch) then (false, s1)
    else (true, setGlobalKey s1 (branchDoneKey puzzle.branch))
  else (false, s1)

/-- `POST /p/:id/submit` (`server.js` lines 327–428).  Note the handler checks
only answer correctness: it performs no prerequisite/lock check. -/
def postSubmit (s : DbState) (participantId : String) (puzzleId : Nat)
    (answer : String) : SubmitOutcome × DbState :=
  match getPuzzleWithOverrides puzzleId s with
  | none => (SubmitOutcome.notFound, s)
  | some puzzle =>
    if normalizeAnswer answer == puzzle.answer then
      let res := recordSolve s participantId puzzleId
      let bc := branchCompletionStep res.2 puzzle res.1.isFirst
      let doneCount := countDoneKeys bc.2
      (SubmitOutcome.correct res.1 bc.1 doneCount
        (decide (doneCount ≥ 2)) (decide (doneCount ≥ 4)), bc.2)
    else (SubmitOutcome.incorrect, s)

/-- The `isCorrect` test of `POST /meta/submit` (`server.js` lines 597–604):
accept the trimmed submission when it equals the computed vault code or the
configured override code. -/
def metaSubmitIsCorrect (s : DbState) (rawCode : String)
    (envVaultCode : String := VAULT_CODE) : Bool :=
  let submittedCode := jsTrim rawCode
  let vaultCode := (computeVaultCode (getCompletedBranches s)).vaultCode
  (match vaultCode with
   | some v => submittedCode == v
   | none => false) || submittedCode == envVaultCode

/-- The progress fields of the `GET /api/status` JSON (`server.js` lines
2061–2097); the percentage and activity-feed fields are presentation. -/
structure ApiStatus where
  totalPuzzles : Nat
  globalSolved : Nat
  completedBranches : List Branch
  hubUnlocked : Bool
  metaUnlocked : Bool
  digits : String
deriving DecidableEq, Repr

/-- `GET /api/status`. -/
def apiStatus (s : DbState) : ApiStatus :=
  let globalSolvedIds := getGlobalSolvedPuzzleIds s
  let completedBranches := getCompletedBranches s
  let doneCount := completedBranches.length
  { totalPuzzles := 12,
    globalSolved := globalSolvedIds.length,
    completedBranches := completedBranches,
    hubUnlocked := decide (doneCount ≥ 2),
    metaUnlocked := decide (doneCount ≥ 4),
    digits := (computeVaultCode completedBranches).digits }

/-- One submission request as received by `POST /p/:id/submit`. -/
structure SubmitReq where
  participantId : String
  puzzleId : Nat
  answer : String
deriving DecidableEq, Repr

/-- Run a sequence of submissions. -/
def runSubmits (s : DbState) : List SubmitReq → DbState
  | [] => s
  | r :: rs => runSubmits (postSubmit s r.participantId r.puzzleId r.answer).2 rs

/-- States reachable from the freshly initialized database through the submit
handler (branches complete one at a time through play, in any order). -/
inductive Reachable : DbState → Prop where
  | init : Reachable initialState
  | step {s : DbState} (pid : String) (q : Nat) (ans : String) :
      Reachable s → Reachable (postSubmit s pid q ans).2

/-- The submission fires the branch-completed transition event for branch `b`:
the handler renders the `BRANCH COMPLETE` banner for a puzzle of branch `b`. -/
def submitCompletesBranch (s : DbState) (r : SubmitReq) (b : Branch) : Bool :=
  match (postSubmit s r.participantId r.puzzleId r.answer).1 with
  | SubmitOutcome.correct _ true _ _ _ =>
      (getPuzzle r.puzzleId).any (fun p => p.branch == b)
  | _ => false

/-- Number of branch-completed transition events for branch `b` along a trace
of submissions. -/
def countBranchCompletions (s : DbState) (b : Branch) : List SubmitReq → Nat
  | [] => 0
  | r :: rs =>
      (if submitCompletesBranch s r b then 1 else 0) +
        countBranchCompletions (postSubmit s r.participantId r.puzzleId r.answer).2 b rs

/-- Count of branches whose Completion Flag is set (the spec's 'count of
branches with Completion Flag set'). -/
def branchFlagCount (s : DbState) : Nat :=
  (BRANCH_ORDER.filter (fun b => hasGlobalKey s (branchDoneKey b))).length

/-- Invariant of the key store: the inserted keys are exactly distinct branch
completion flags. -/
def GoodKeys (keys : List String) : Prop :=
  keys.Nodup ∧ ∀ k ∈ keys, ∃ b, k = branchDoneKey b

/-! ## Helper lemmas -/

theorem string_foldl_append_shift (l : List String) (a b : String) :
    l.foldl (fun x y => x ++ y) (a ++ b) = a ++ l.foldl (fun x y => x ++ y) b := by
  induction l generalizing b with
  | nil => rfl
  | cons c t ih => simp only [List.foldl_cons, String.append_assoc, ih]

theorem string_join_cons (s : String) (l : List String) :
    String.join (s :: l) = s ++ String.join l := by
  show l.foldl (fun x y => x ++ y) ("" ++ s) = s ++ l.foldl (fun x y => x ++ y) ""
  rw [String.empty_append]
  conv_lhs => rw [show s = s ++ "" from (String.append_empty s).symm]
  exact string_foldl_append_shift l s ""

theorem buildDigits_foldl_join (p : Branch → Bool) (l : List Branch) (acc : String) :
    l.foldl (fun digits branch =>
        if p branch then digits ++ digitsJoin (BRANCHES branch).digits else digits) acc
      = acc ++ String.join ((l.filter p).map (fun b => digitsJoin (BRANCHES b).digits)) := by
  induction l generalizing acc with
  | nil => simp [String.join, String.append_empty]
  | cons b t ih =>
    by_cases hb : p b
    · simp only [List.foldl_cons, List.filter_cons, hb, if_pos, List.map_cons]
      rw [ih, string_join_cons, String.append_assoc]
    · simp only [List.foldl_cons, List.filter_cons, hb, if_neg, Bool.false_eq_true,
        not_false_eq_true]
      exact ih acc

/-- `buildDigitsString` is the canonical-order concatenation over exactly the
branches contained in the input. -/
theorem buildDigitsString_eq_join (l : List Branch) :
    buildDigitsString l = String.join ((BRANCH_ORDER.filter (fun b => l.contains b)).map
      (fun b => digitsJoin (BRANCHES b).digits)) := by
  unfold buildDigitsString
  rw [buildDigits_foldl_join, String.empty_append]

theorem digitsJoin_branch_length (b : Branch) : (digitsJoin (BRANCHES b).digits).length = 2 := by
  cases b <;> rfl

theorem buildDigits_foldl_length (p : Branch → Bool) (l : List Branch) (acc : String) :
    (l.foldl (fun digits branch =>
        if p branch then digits ++ digitsJoin (BRANCHES branch).digits else digits) acc).length
      = acc.length + 2 * (l.filter p).length := by
  induction l generalizing acc with
  | nil => simp
  | cons b t ih =>
    by_cases hb : p b
    · simp only [List.foldl_cons, List.filter_cons, hb, if_pos]
      rw [ih, String.length_append, digitsJoin_branch_length, List.length_cons]
      omega
    · simp only [List.foldl_cons, List.filter_cons, hb, if_neg, Bool.false_eq_true,
        not_false_eq_true]
      rw [ih]

theorem branchOrder_filter_card (p : Branch → Bool) :
    (BRANCH_ORDER.filter p).length = (Finset.univ.filter (fun b => p b = true)).card := by
  have hnd : (BRANCH_ORDER.filter p).Nodup := (by decide : BRANCH_ORDER.Nodup).filter p
  calc (BRANCH_ORDER.filter p).length
      = (BRANCH_ORDER.filter p).dedup.length := by rw [List.dedup_eq_self.mpr hnd]
    _ = (BRANCH_ORDER.filter p).toFinset.card := (List.card_toFinset _).symm
    _ = (BRANCH_ORDER.toFinset.filter (fun b => p b = true)).card := by
        rw [List.toFinset_filter]
    _ = (Finset.univ.filter (fun b => p b = true)).card := by
        rw [show BRANCH_ORDER.toFinset = Finset.univ from by decide]

theorem contains_filter_eq_mem_filter (l : List Branch) :
    (Finset.univ.filter (fun b => l.contains b = true))
      = (Finset.univ.filter (fun b => b ∈ l)) := by
  apply Finset.filter_congr
  intro b _
  simp [List.contains, List.elem_iff]

/-- The digit string has two characters per distinct completed branch. -/
theorem buildDigitsString_length (l : List Branch) :
    (buildDigitsString l).length = 2 * (Finset.univ.filter (fun b => b ∈ l)).card := by
  unfold buildDigitsString
  rw [buildDigits_foldl_length, branchOrder_filter_card, contains_filter_eq_mem_filter]
  simp

theorem computeVaultCode_of_lt (l : List Branch) (h : (buildDigitsString l).length < 8) :
    computeVaultCode l
      = { digits := buildDigitsString l, permuted := none, vaultCode := none } := by
  show (if (buildDigitsString l).length < 8 then
      ({ digits := buildDigitsString l, permuted := none, vaultCode := none } : VaultCodeResult)
    else
      { digits := buildDigitsString l, permuted := applyPermutation (buildDigitsString l),
        vaultCode := (applyPermutation (buildDigitsString l)).map (fun p => jsSlice p 6) }) = _
  rw [if_pos h]

theorem computeVaultCode_of_ge (l : List Branch) (h : ¬ (buildDigitsString l).length < 8) :
    computeVaultCode l
      = { digits := buildDigitsString l,
          permuted := applyPermutation (buildDigitsString l),
          vaultCode := (applyPermutation (buildDigitsString l)).map (fun p => jsSlice p 6) } := by
  show (if (buildDigitsString l).length < 8 then
      ({ digits := buildDigitsString l, permuted := none, vaultCode := none } : VaultCodeResult)
    else
      { digits := buildDigitsString l, permuted := applyPermutation (buildDigitsString l),
        vaultCode := (applyPermutation (buildDigitsString l)).map (fun p => jsSlice p 6) }) = _
  rw [if_neg h]

/-- On a well-formed 8-character digit string the default-key permutation
produces an 8-character string. -/
theorem applyPermutation_default_some (digits : String) (h : digits.data.length = 8) :
    ∃ r : String, applyPermutation digits = some r ∧ r.data.length = 8 := by
  obtain ⟨l⟩ := digits
  obtain _ | ⟨c0, _ | ⟨c1, _ | ⟨c2, _ | ⟨c3, _ | ⟨c4, _ | ⟨c5, _ | ⟨c6, _ | ⟨c7, _ | ⟨c8, l⟩⟩⟩⟩⟩⟩⟩⟩⟩ := l <;>
    simp_all
  exact ⟨⟨[c1, c5, c0, c4, c2, c3, c6, c7]⟩, rfl, rfl⟩

/-! ## Claim theorems -/

/-- C2: with all four branches complete, `computeVaultCode` returns digits
`"41820953"`, permuted string `"19408253"` (equal to
`applyPermutation "41820953" "26153478"`), and vault code `"194082"`, the
first 6 characters of the permuted string. -/
theorem C2_vault_code_computation :
    applyPermutation "41820953" "26153478" = some "19408253" ∧
    buildDigitsString [Branch.F, Branch.M, Branch.D, Branch.B] = "41820953" ∧
    computeVaultCode [Branch.F, Branch.M, Branch.D, Branch.B]
      = { digits := "41820953", permuted := some "19408253", vaultCode := some "194082" } ∧
    jsSlice "19408253" 6 = "194082" := by
  exact ⟨by decide, by decide, by decide, by decide⟩

/-- C3: `buildDigitsString` concatenates the 2-digit sequences of exactly the
completed branches in the fixed canonical order `F, M, D, B`, independently of
the order of the input list, and its length is `2 ×` the number of distinct
completed branches. -/
theorem C3_buildDigitsString_canonical_order (l : List Branch) :
    buildDigitsString l
        = String.join ((BRANCH_ORDER.filter (fun b => l.contains b)).map
            (fun b => digitsJoin (BRANCHES b).digits)) ∧
    (buildDigitsString l).length = 2 * (Finset.univ.filter (fun b => b ∈ l)).card ∧
    ∀ l' : List Branch, (∀ b : Branch, b ∈ l ↔ b ∈ l') →
      buildDigitsString l = buildDigitsString l' := by
  refine ⟨buildDigitsString_eq_join l, buildDigitsString_length l, ?_⟩
  intro l' h
  rw [buildDigitsString_eq_join l, buildDigitsString_eq_join l']
  have hc : ∀ b : Branch, l.contains b = l'.contains b := by
    intro b
    rw [Bool.eq_iff_iff]
    simp only [List.contains, List.elem_iff]
    exact h b
  rw [List.filter_congr (fun b _ => hc b)]

/-- Witness for C3: two completion lists with the same members but different
order and multiplicities give the same digit string. -/
theorem C3_witness :
    (∀ b : Branch, b ∈ [Branch.M, Branch.F] ↔ b ∈ [Branch.F, Branch.M, Branch.M]) ∧
    buildDigitsString [Branch.M, Branch.F] = buildDigitsString [Branch.F, Branch.M, Branch.M] ∧
    buildDigitsString [Branch.M, Branch.F] = "4182" := by
  refine ⟨by decide, ?_, by decide⟩
  exact (C3_buildDigitsString_canonical_order [Branch.M, Branch.F]).2.2
    [Branch.F, Branch.M, Branch.M] (by decide)

/-- C7: `applyPermutation` yields no value when either input is not
8 characters long; `computeVaultCode` reports the permuted string and vault
code as absent whenever fewer than 4 branches are complete; and any vault code
it does produce has exactly 6 characters. -/
theorem C7_length_guards (digits perm : String) (l l' : List Branch) :
    (digits.length ≠ 8 ∨ perm.length ≠ 8 → applyPermutation digits perm = none) ∧
    ((Finset.univ.filter (fun b => b ∈ l)).card < 4 →
      (computeVaultCode l).permuted = none ∧ (computeVaultCode l).vaultCode = none) ∧
    (∀ c : String, (computeVaultCode l').vaultCode = some c → c.length = 6) := by
  refine ⟨?_, ?_, ?_⟩
  · intro h
    unfold applyPermutation
    rw [if_pos h]
  · intro h
    have hlen : (buildDigitsString l).length < 8 := by
      rw [buildDigitsString_length]
      omega
    rw [computeVaultCode_of_lt l hlen]
    exact ⟨rfl, rfl⟩
  · intro c hc
    by_cases hlen : (buildDigitsString l').length < 8
    · rw [computeVaultCode_of_lt l' hlen] at hc
      exact absurd hc (by simp)
    · have hle : (buildDigitsString l').length ≤ 8 := by
        rw [buildDigitsString_length]
        have := Finset.card_filter_le (Finset.univ : Finset Branch) (fun b => b ∈ l')
        rw [show (Finset.univ : Finset Branch).card = 4 from by decide] at this
        omega
      have h8 : (buildDigitsString l').data.length = 8 := by
        have : (buildDigitsString l').length = 8 := by omega
        exact this
      obtain ⟨r, hr, hr8⟩ := applyPermutation_default_some _ h8
      rw [computeVaultCode_of_ge l' hlen] at hc
      simp only [hr, Option.map_some] at hc
      have : c = jsSlice r 6 := by
        injection hc with h
        exact h.symm
      rw [this]
      show (r.data.take 6).length = 6
      rw [List.length_take, hr8]
      decide

/-- Witness for C7: a 3-character digit string is rejected; one completed
branch yields no permuted string and no vault code; with all four branches the
code is the 6-character `"194082"`. -/
theorem C7_witness :
    applyPermutation "123" "26153478" = none ∧
    (computeVaultCode [Branch.F]).permuted = none ∧
    (computeVaultCode [Branch.F]).vaultCode = none ∧
    (computeVaultCode [Branch.F, Branch.M, Branch.D, Branch.B]).vaultCode = some "194082" ∧
    "194082".length = 6 := by
  obtain ⟨h1, h2, h3⟩ :=
    C7_length_guards "123" "26153478" [Branch.F] [Branch.F, Branch.M, Branch.D, Branch.B]
  refine ⟨h1 (by decide), (h2 (by decide)).1, (h2 (by decide)).2, by decide, ?_⟩
  exact h3 "194082" (by decide)

/-! ## Solve-ledger and database lemmas -/

theorem find?_filter_self {α : Type} (p : α → Bool) (l : List α) :
    (l.filter p).find? p = l.find? p := by
  induction l with
  | nil => rfl
  | cons hd t ih =>
    by_cases hp : p hd
    · simp [List.filter_cons, hp]
    · simp [List.filter_cons, List.find?_cons, hp, ih]

theorem setGlobalValue_globalKeys (s : DbState) (n v : String) :
    (setGlobalValue s n v).globalKeys = s.globalKeys := by
  unfold setGlobalValue
  split <;> rfl

theorem getCompletedBranches_eq_of_keys {s1 s2 : DbState}
    (h : s1.globalKeys = s2.globalKeys) :
    getCompletedBranches s1 = getCompletedBranches s2 := by
  unfold getCompletedBranches
  rw [h]

theorem find?_map_update (l : List (String × String)) (n v : String) :
    (l.map (fun nv => if nv.1 == n then (nv.1, v) else nv)).find? (fun nv => nv.1 == n)
      = (l.find? (fun nv => nv.1 == n)).map (fun nv => (nv.1, v)) := by
  induction l with
  | nil => rfl
  | cons hd t ih =>
    rcases hd with ⟨k, w⟩
    by_cases heq : k = n
    · subst heq
      simp [List.find?_cons]
    · have h1 : (k == n) = false := by simpa using heq
      have hfd : (if ((k, w).1 == n) = true then ((k, w).1, v) else (k, w)) = (k, w) := by
        rw [if_neg]
        simp [h1]
      rw [List.map_cons, hfd, List.find?_cons, List.find?_cons]
      simp only [h1]
      exact ih

theorem getGlobalValue_setGlobalValue_self (s : DbState) (n v : String) :
    getGlobalValue (setGlobalValue s n v) n = some v := by
  unfold getGlobalValue setGlobalValue
  by_cases hf : (s.globalValues.find? (fun nv => nv.1 == n)).isSome
  · rw [if_pos hf]
    show ((s.globalValues.map (fun nv => if nv.1 == n then (nv.1, v) else nv)).find?
      (fun nv => nv.1 == n)).map Prod.snd = some v
    rw [find?_map_update]
    obtain ⟨x, hx⟩ := Option.isSome_iff_exists.mp hf
    rw [hx]
    rfl
  · rw [if_neg hf]
    show ((s.globalValues ++ [(n, v)]).find? (fun nv => nv.1 == n)).map Prod.snd = some v
    have hnone : s.globalValues.find? (fun nv => nv.1 == n) = none := by
      cases h : s.globalValues.find? (fun nv => nv.1 == n)
      · rfl
      · rw [h] at hf
        exact absurd rfl hf
    rw [List.find?_append, hnone]
    simp [List.find?_cons]

/-- C4: `recordSolve` is idempotent: with a Solve already present it performs
no write and reports `success=false, isFirst=false, alreadySolved=true`, and
two calls for the same pair never create two ledger rows. -/
theorem C4_recordSolve_idempotent (s : DbState) (pid : String) (q : Nat) :
    (s.solves.contains (pid, q) = true →
      recordSolve s pid q
        = ({ success := false, isFirst := false, alreadySolved := true }, s)) ∧
    (recordSolve (recordSolve s pid q).2 pid q).2 = (recordSolve s pid q).2 ∧
    (recordSolve (recordSolve s pid q).2 pid q).1.alreadySolved = true ∧
    (s.solves.count (pid, q) = 0 →
      ((recordSolve (recordSolve s pid q).2 pid q).2).solves.count (pid, q) = 1) := by
  by_cases h : s.solves.contains (pid, q)
  · have h1 : recordSolve s pid q
        = ({ success := false, isFirst := false, alreadySolved := true }, s) := by
      unfold recordSolve
      rw [if_pos h]
    refine ⟨fun _ => h1, ?_, ?_, ?_⟩
    · rw [h1, h1]
    · rw [h1, h1]
    · intro hc
      exact absurd (List.elem_iff.mp h) (List.count_eq_zero.mp hc)
  · have hb : s.solves.contains (pid, q) = false := by
      cases hx : s.solves.contains (pid, q)
      · rfl
      · exact absurd hx h
    have h1 : recordSolve s pid q
        = ({ success := true, isFirst := !(s.solves.any (fun row => row.2 == q)),
             alreadySolved := false },
           { s with solves := s.solves ++ [(pid, q)] }) := by
      unfold recordSolve
      rw [if_neg h]
    have hmem : (s.solves ++ [(pid, q)]).contains (pid, q) = true :=
      List.elem_iff.mpr (List.mem_append_right _ (List.mem_singleton.mpr rfl))
    have h2 : recordSolve { s with solves := s.solves ++ [(pid, q)] } pid q
        = ({ success := false, isFirst := false, alreadySolved := true },
           { s with solves := s.solves ++ [(pid, q)] }) := by
      unfold recordSolve
      rw [if_pos hmem]
    refine ⟨fun hc => absurd hc h, ?_, ?_, ?_⟩
    · rw [h1, h2]
    · rw [h1, h2]
    · intro hc
      rw [h1, h2]
      show (s.solves ++ [(pid, q)]).count (pid, q) = 1
      rw [List.count_append, hc]
      simp

/-- Witness for C4 at a concrete state: a second `recordSolve` for the same
pair reports `alreadySolved` and leaves exactly one ledger row. -/
theorem C4_witness :
    recordSolve { initialState with solves := [("alice", 3)] } "alice" 3
      = ({ success := false, isFirst := false, alreadySolved := true },
         { initialState with solves := [("alice", 3)] }) ∧
    (recordSolve (recordSolve initialState "alice" 3).2 "alice" 3).2
      = (recordSolve initialState "alice" 3).2 ∧
    ((recordSolve (recordSolve initialState "alice" 3).2 "alice" 3).2).solves.count
      ("alice", 3) = 1 := by
  refine ⟨(C4_recordSolve_idempotent { initialState with solves := [("alice", 3)] }
      "alice" 3).1 (by decide),
    (C4_recordSolve_idempotent initialState "alice" 3).2.1,
    (C4_recordSolve_idempotent initialState "alice" 3).2.2.2 (by decide)⟩

/-- C8: the full admin reset empties the solves, participants and
completion-flag stores while the stored permutation key keeps its value. -/
theorem C8_reset_preserves_perm (s : DbState) :
    (resetAllData s).solves = [] ∧
    (resetAllData s).participants = [] ∧
    (resetAllData s).globalKeys = [] ∧
    getGlobalValue (resetAllData s) "perm" = getGlobalValue s "perm" ∧
    getPermutationKey (resetAllData s) = getPermutationKey s := by
  have h4 : getGlobalValue (resetAllData s) "perm" = getGlobalValue s "perm" := by
    unfold getGlobalValue resetAllData
    rw [find?_filter_self]
  refine ⟨rfl, rfl, rfl, h4, ?_⟩
  unfold getPermutationKey
  rw [h4]

/-! ## Answer-normalization lemmas (for C9) -/

theorem jsUpperStrip_reverse (l : List Char) :
    jsUpperStrip l.reverse = (jsUpperStrip l).reverse := by
  unfold jsUpperStrip
  rw [List.map_reverse, List.filter_reverse]

theorem space_upper_not_answer (c : Char) (h : jsIsSpace c = true) :
    isAnswerChar (Char.toUpper c) = false := by
  have hc : ((c = ' ' ∨ c = '\t') ∨ c = '\x0d') ∨ c = '\n' := by
    simpa [jsIsSpace, Char.isWhitespace] using h
  rcases hc with ((rfl | rfl) | rfl) | rfl <;> decide

theorem jsUpperStrip_dropWhile (l : List Char) :
    jsUpperStrip (l.dropWhile jsIsSpace) = jsUpperStrip l := by
  induction l with
  | nil => rfl
  | cons c t ih =>
    by_cases hc : jsIsSpace c
    · rw [List.dropWhile_cons]
      simp only [hc, if_pos]
      rw [ih]
      unfold jsUpperStrip
      rw [List.map_cons, List.filter_cons]
      simp [space_upper_not_answer c hc]
    · rw [List.dropWhile_cons]
      simp [hc]

/-- Trimming first never changes the upper-cased alphanumeric projection. -/
theorem jsUpperStrip_trim (l : List Char) : jsUpperStrip (jsTrimChars l) = jsUpperStrip l := by
  unfold jsTrimChars
  rw [jsUpperStrip_reverse, jsUpperStrip_dropWhile, jsUpperStrip_reverse, List.reverse_reverse,
    jsUpperStrip_dropWhile]

/-- The read-time normalization of override answers coincides with the
canonical `normalizeAnswer` transform. -/
theorem readNormalize_eq_normalize (a : String) : readNormalizeAnswer a = normalizeAnswer a := by
  unfold readNormalizeAnswer normalizeAnswer
  rw [jsUpperStrip_trim]

/-- C9 counterexample: `setPuzzleOverride` stores the override answer verbatim
(`"hi there!"`), not in normalized form (`"HITHERE"`), so override answers are
not normalized at write time. -/
theorem C9_counterexample_raw_write :
    getPuzzleOverride (setPuzzleOverride initialState 1
        { location_hint := none, prompt := none, answer := some "hi there!" }) 1
      = some { location_hint := none, prompt := none, answer := some "hi there!" } ∧
    normalizeAnswer "hi there!" = "HITHERE" ∧
    "hi there!" ≠ "HITHERE" := by
  exact ⟨by decide, by decide, by decide⟩

/-- C9 (amended): override answers are stored raw and normalized at read time:
the read-time transform equals `normalizeAnswer`, catalog answers are already
fixed points of it, and `getPuzzleWithOverrides` substitutes the non-null
(non-empty) override fields with the override answer normalized. -/
theorem C9_overrides_normalized_at_read (s s2 : DbState) (id : Nat) :
    (∀ a : String, readNormalizeAnswer a = normalizeAnswer a) ∧
    (∀ p ∈ PUZZULAR, normalizeAnswer p.answer = p.answer) ∧
    (∀ base ov, getPuzzle id = some base → getPuzzleOverride s id = some ov →
      getPuzzleWithOverrides id s = some { base with
        location_hint := jsOrString ov.location_hint base.location_hint,
        prompt := jsOrString ov.prompt base.prompt,
        answer := match ov.answer with
          | some a => if a == "" then base.answer else normalizeAnswer a
          | none => base.answer }) ∧
    (getPuzzleOverride s2 id = none → getPuzzleWithOverrides id s2 = getPuzzle id) := by
  refine ⟨readNormalize_eq_normalize, by decide, ?_, ?_⟩
  · intro base ov hb ho
    simp only [getPuzzleWithOverrides, hb, ho]
    cases ha : ov.answer with
    | none => rfl
    | some a =>
      by_cases he : a == ""
      · simp [he]
      · simp [he, readNormalize_eq_normalize]
  · intro h2
    unfold getPuzzleWithOverrides
    cases hgp : getPuzzle id
    · rfl
    · rw [h2]

/-- Witness for C9 (amended): a raw override answer `"hi there!"` on puzzle 1
is served back normalized as `"HITHERE"`; with no override the catalog entry is
served unchanged. -/
theorem C9_witness :
    getPuzzleWithOverrides 1 (setPuzzleOverride initialState 1
        { location_hint := none, prompt := none, answer := some "hi there!" })
      = some { id := 1, branch := Branch.F, step := 1, title := "Food Puzzle 1",
               location_hint := "Fridge",
               prompt := "Caesar cipher +3: Decode \"SODBOLVW\"", answer := "HITHERE" } ∧
    getPuzzleWithOverrides 1 initialState = getPuzzle 1 := by
  have h := C9_overrides_normalized_at_read
    (setPuzzleOverride initialState 1
      { location_hint := none, prompt := none, answer := some "hi there!" })
    initialState 1
  constructor
  · rw [h.2.2.1 { id := 1, branch := Branch.F, step := 1, title := "Food Puzzle 1",
                  location_hint := "Fridge",
                  prompt := "Caesar cipher +3: Decode \"SODBOLVW\"", answer := "PLAYLIST" }
      { location_hint := none, prompt := none, answer := some "hi there!" }
      (by decide) (by decide)]
    decide
  · exact h.2.2.2 (by decide)

/-- C10: the vault-code computation and the vault-code acceptance check of
`POST /meta/submit` never read the stored `perm` value: states agreeing on the
completion flags produce identical results, and in particular overwriting the
stored permutation key (which `getPermutationKey` does report back whenever
the new value is non-empty, i.e. truthy) changes nothing. -/
theorem C10_vault_code_ignores_stored_perm (s s2 : DbState) (v raw env : String)
    (hkeys : s2.globalKeys = s.globalKeys) :
    computeVaultCode (getCompletedBranches s2) = computeVaultCode (getCompletedBranches s) ∧
    metaSubmitIsCorrect s2 raw env = metaSubmitIsCorrect s raw env ∧
    getCompletedBranches (setGlobalValue s "perm" v) = getCompletedBranches s ∧
    computeVaultCode (getCompletedBranches (setGlobalValue s "perm" v))
      = computeVaultCode (getCompletedBranches s) ∧
    (v ≠ "" → getPermutationKey (setGlobalValue s "perm" v) = v) := by
  have h1 : getCompletedBranches s2 = getCompletedBranches s :=
    getCompletedBranches_eq_of_keys hkeys
  have h2 : getCompletedBranches (setGlobalValue s "perm" v) = getCompletedBranches s :=
    getCompletedBranches_eq_of_keys (setGlobalValue_globalKeys s "perm" v)
  refine ⟨by rw [h1], ?_, h2, by rw [h2], ?_⟩
  · unfold metaSubmitIsCorrect
    rw [h1]
  · intro hv
    unfold getPermutationKey
    rw [getGlobalValue_setGlobalValue_self]
    simp [jsOrString, hv]

/-- Witness for C10: overwriting the stored permutation key with
`"87654321"` changes `getPermutationKey` but not the acceptance check. -/
theorem C10_witness :
    metaSubmitIsCorrect (setGlobalValue initialState "perm" "87654321") "194082" VAULT_CODE
      = metaSubmitIsCorrect initialState "194082" VAULT_CODE ∧
    getPermutationKey (setGlobalValue initialState "perm" "87654321") = "87654321" := by
  have h := C10_vault_code_ignores_stored_perm initialState
    (setGlobalValue initialState "perm" "87654321") "87654321" "194082" VAULT_CODE (by decide)
  exact ⟨h.2.1, h.2.2.2.2 (by decide)⟩

theorem recordSolve_globalKeys (s : DbState) (pid : String) (q : Nat) :
    ((recordSolve s pid q).2).globalKeys = s.globalKeys := by
  unfold recordSolve
  split <;> rfl

theorem hasGlobalKey_setGlobalKey_self (s : DbState) (k : String) :
    hasGlobalKey (setGlobalKey s k) k = true := by
  unfold hasGlobalKey setGlobalKey
  split
  next h => exact h
  next h => exact List.elem_iff.mpr (List.mem_append_right _ (List.mem_singleton.mpr rfl))

theorem hasGlobalKey_setGlobalKey_mono (s : DbState) (k k2 : String)
    (h : hasGlobalKey s k = true) : hasGlobalKey (setGlobalKey s k2) k = true := by
  unfold hasGlobalKey setGlobalKey at *
  split
  · exact h
  · exact List.elem_iff.mpr (List.mem_append_left _ (List.elem_iff.mp h))

theorem branchCompletionStep_true (s1 : DbState) (p : Puzzle) (f : Bool)
    (h : (branchCompletionStep s1 p f).1 = true) :
    hasGlobalKey s1 (branchDoneKey p.branch) = false ∧
    (branchCompletionStep s1 p f).2 = setGlobalKey s1 (branchDoneKey p.branch) := by
  by_cases hstep : (p.step == 3 && f) = true
  · by_cases hkey : hasGlobalKey s1 (branchDoneKey p.branch) = true
    · unfold branchCompletionStep at h
      rw [if_pos hstep, if_pos hkey] at h
      exact absurd h (by simp)
    · have hkf : hasGlobalKey s1 (branchDoneKey p.branch) = false := by
        cases hx : hasGlobalKey s1 (branchDoneKey p.branch)
        · rfl
        · exact absurd hx hkey
      unfold branchCompletionStep
      rw [if_pos hstep, if_neg hkey]
      exact ⟨hkf, rfl⟩
  · unfold branchCompletionStep at h
    rw [if_neg hstep] at h
    exact absurd h (by simp)

theorem branchCompletionStep_state (s1 : DbState) (p : Puzzle) (f : Bool) :
    (branchCompletionStep s1 p f).2 = s1 ∨
    ((branchCompletionStep s1 p f).1 = true ∧
      (branchCompletionStep s1 p f).2 = setGlobalKey s1 (branchDoneKey p.branch)) := by
  unfold branchCompletionStep
  split
  · split
    · left; rfl
    · right; exact ⟨rfl, rfl⟩
  · left; rfl

theorem postSubmit_notFound (s : DbState) (pid : String) (q : Nat) (ans : String)
    (hq : getPuzzleWithOverrides q s = none) :
    postSubmit s pid q ans = (SubmitOutcome.notFound, s) := by
  unfold postSubmit
  rw [hq]

theorem postSubmit_incorrect (s : DbState) (pid : String) (q : Nat) (ans : String)
    (puzzle : Puzzle) (hq : getPuzzleWithOverrides q s = some puzzle)
    (hc : ¬ (normalizeAnswer ans == puzzle.answer) = true) :
    postSubmit s pid q ans = (SubmitOutcome.incorrect, s) := by
  unfold postSubmit
  rw [hq]
  simp only [if_neg hc]

theorem postSubmit_correct (s : DbState) (pid : String) (q : Nat) (ans : String)
    (puzzle : Puzzle) (hq : getPuzzleWithOverrides q s = some puzzle)
    (hc : (normalizeAnswer ans == puzzle.answer) = true) :
    postSubmit s pid q ans
      = (SubmitOutcome.correct (recordSolve s pid q).1
          (branchCompletionStep (recordSolve s pid q).2 puzzle (recordSolve s pid q).1.isFirst).1
          (countDoneKeys
            (branchCompletionStep (recordSolve s pid q).2 puzzle (recordSolve s pid q).1.isFirst).2)
          (decide (countDoneKeys
            (branchCompletionStep (recordSolve s pid q).2 puzzle
              (recordSolve s pid q).1.isFirst).2 ≥ 2))
          (decide (countDoneKeys
            (branchCompletionStep (recordSolve s pid q).2 puzzle
              (recordSolve s pid q).1.isFirst).2 ≥ 4)),
         (branchCompletionStep (recordSolve s pid q).2 puzzle
           (recordSolve s pid q).1.isFirst).2) := by
  unfold postSubmit
  rw [hq]
  simp only [if_pos hc]


theorem getPuzzleWithOverrides_base (q : Nat) (s : DbState) (puzzle : Puzzle)
    (h : getPuzzleWithOverrides q s = some puzzle) :
    ∃ base, getPuzzle q = some base ∧ base.branch = puzzle.branch ∧ base.step = puzzle.step := by
  unfold getPuzzleWithOverrides at h
  cases hb : getPuzzle q with
  | none =>
    rw [hb] at h
    exact absurd h (by simp)
  | some base =>
    rw [hb] at h
    cases ho : getPuzzleOverride s q with
    | none =>
      rw [ho] at h
      injection h with h2
      exact ⟨base, rfl, by rw [h2], by rw [h2]⟩
    | some ov =>
      rw [ho] at h
      injection h with h2
      exact ⟨base, rfl, by rw [← h2], by rw [← h2]⟩

theorem postSubmit_state (s : DbState) (pid : String) (q : Nat) (ans : String) :
    (postSubmit s pid q ans).2 = s ∨
    (∃ puzzle, getPuzzleWithOverrides q s = some puzzle ∧
      (postSubmit s pid q ans).2
        = (branchCompletionStep (recordSolve s pid q).2 puzzle
            (recordSolve s pid q).1.isFirst).2) := by
  cases hq : getPuzzleWithOverrides q s with
  | none =>
    left
    rw [postSubmit_notFound s pid q ans hq]
  | some puzzle =>
    by_cases hc : (normalizeAnswer ans == puzzle.answer) = true
    · right
      exact ⟨puzzle, rfl, by rw [postSubmit_correct s pid q ans puzzle hq hc]⟩
    · left
      rw [postSubmit_incorrect s pid q ans puzzle hq hc]

theorem postSubmit_hasKey_mono (s : DbState) (pid : String) (q : Nat) (ans : String)
    (k : String) (h : hasGlobalKey s k = true) :
    hasGlobalKey (postSubmit s pid q ans).2 k = true := by
  have h1 : hasGlobalKey (recordSolve s pid q).2 k = true := by
    unfold hasGlobalKey at *
    rw [recordSolve_globalKeys]
    exact h
  rcases postSubmit_state s pid q ans with hs | ⟨puzzle, hq, hs⟩
  · rw [hs]
    exact h
  · rw [hs]
    rcases branchCompletionStep_state (recordSolve s pid q).2 puzzle
        (recordSolve s pid q).1.isFirst with h2 | ⟨_, h2⟩
    · rw [h2]
      exact h1
    · rw [h2]
      exact hasGlobalKey_setGlobalKey_mono _ _ _ h1

theorem submitCompletes_char (s : DbState) (r : SubmitReq) (b : Branch)
    (h : submitCompletesBranch s r b = true) :
    hasGlobalKey s (branchDoneKey b) = false ∧
    hasGlobalKey (postSubmit s r.participantId r.puzzleId r.answer).2 (branchDoneKey b) = true := by
  unfold submitCompletesBranch at h
  cases hq : getPuzzleWithOverrides r.puzzleId s with
  | none =>
    rw [postSubmit_notFound s r.participantId r.puzzleId r.answer hq] at h
    exact absurd h (by simp)
  | some puzzle =>
    by_cases hc : (normalizeAnswer r.answer == puzzle.answer) = true
    · rw [postSubmit_correct s r.participantId r.puzzleId r.answer puzzle hq hc] at h
      by_cases hbc : (branchCompletionStep (recordSolve s r.participantId r.puzzleId).2 puzzle
          (recordSolve s r.participantId r.puzzleId).1.isFirst).1 = true
      · rw [hbc] at h
        -- h : (getPuzzle r.puzzleId).any (fun p => p.branch == b) = true
        obtain ⟨hkf, hstate⟩ := branchCompletionStep_true _ _ _ hbc
        obtain ⟨base, hbase, hbr, _⟩ := getPuzzleWithOverrides_base r.puzzleId s puzzle hq
        rw [hbase] at h
        have hbb : puzzle.branch = b := by
          have : (base.branch == b) = true := by simpa using h
          rw [← hbr]
          simpa using this
        rw [hbb] at hkf hstate
        constructor
        · unfold hasGlobalKey at hkf ⊢
          rw [← recordSolve_globalKeys s r.participantId r.puzzleId]
          exact hkf
        · rw [postSubmit_correct s r.participantId r.puzzleId r.answer puzzle hq hc, hstate]
          exact hasGlobalKey_setGlobalKey_self _ _
      · have hbcf : (branchCompletionStep (recordSolve s r.participantId r.puzzleId).2 puzzle
            (recordSolve s r.participantId r.puzzleId).1.isFirst).1 = false := by
          cases hx : (branchCompletionStep (recordSolve s r.participantId r.puzzleId).2 puzzle
              (recordSolve s r.participantId r.puzzleId).1.isFirst).1
          · rfl
          · exact absurd hx hbc
        rw [hbcf] at h
        exact absurd h (by simp)
    · rw [postSubmit_incorrect s r.participantId r.puzzleId r.answer puzzle hq hc] at h
      exact absurd h (by simp)


theorem countBranchCompletions_zero (b : Branch) :
    ∀ (rs : List SubmitReq) (s : DbState), hasGlobalKey s (branchDoneKey b) = true →
      countBranchCompletions s b rs = 0 := by
  intro rs
  induction rs with
  | nil => intro s _; rfl
  | cons r t ih =>
    intro s h
    have hfalse : submitCompletesBranch s r b = false := by
      cases hx : submitCompletesBranch s r b
      · rfl
      · exact absurd h (by rw [(submitCompletes_char s r b hx).1]; simp)
    unfold countBranchCompletions
    rw [hfalse]
    simp only [Bool.false_eq_true, if_false, Nat.zero_add]
    exact ih _ (postSubmit_hasKey_mono _ _ _ _ _ h)

theorem countBranchCompletions_le_one (b : Branch) :
    ∀ (rs : List SubmitReq) (s : DbState), countBranchCompletions s b rs ≤ 1 := by
  intro rs
  induction rs with
  | nil => intro s; exact Nat.zero_le 1
  | cons r t ih =>
    intro s
    unfold countBranchCompletions
    cases hx : submitCompletesBranch s r b
    · simp only [Bool.false_eq_true, if_false, Nat.zero_add]
      exact ih _
    · have hkey := (submitCompletes_char s r b hx).2
      have hzero := countBranchCompletions_zero b t _ hkey
      rw [hzero]
      simp

theorem not_global_no_pair (s : DbState) (q : Nat) (pid : String)
    (h : isPuzzleSolvedGlobally s q = false) :
    s.solves.contains (pid, q) = false := by
  cases hx : s.solves.contains (pid, q)
  · rfl
  · exfalso
    have hmem : (pid, q) ∈ s.solves := List.elem_iff.mp hx
    have : s.solves.any (fun row => row.2 == q) = true :=
      List.any_eq_true.mpr ⟨(pid, q), hmem, by simp⟩
    rw [isPuzzleSolvedGlobally] at h
    rw [h] at this
    exact absurd this (by simp)

/-- C5: along any trace of submissions the branch-completed transition event
for a branch fires at most once; once the Completion Flag is set no submission
ever re-fires it; and the first correct submission of a branch's step-3 puzzle
(no prior global solve, flag not yet set) does fire it. -/
theorem C5_branch_completion_exactly_once (s s2 : DbState) (b : Branch) (rs : List SubmitReq)
    (pid : String) (q : Nat) (ans : String) (puzzle : Puzzle) :
    countBranchCompletions s b rs ≤ 1 ∧
    (hasGlobalKey s (branchDoneKey b) = true → countBranchCompletions s b rs = 0) ∧
    (getPuzzleWithOverrides q s2 = some puzzle → puzzle.branch = b → puzzle.step = 3 →
      (normalizeAnswer ans == puzzle.answer) = true →
      isPuzzleSolvedGlobally s2 q = false →
      hasGlobalKey s2 (branchDoneKey b) = false →
      submitCompletesBranch s2 { participantId := pid, puzzleId := q, answer := ans } b = true) := by
  refine ⟨countBranchCompletions_le_one b rs s, fun h => countBranchCompletions_zero b rs s h, ?_⟩
  intro hq hbr hstep hc hglob hflag
  have hpair : s2.solves.contains (pid, q) = false := not_global_no_pair s2 q pid hglob
  have hres : recordSolve s2 pid q
      = ({ success := true, isFirst := true, alreadySolved := false },
         { s2 with solves := s2.solves ++ [(pid, q)] }) := by
    unfold recordSolve
    rw [if_neg (by rw [hpair]; simp)]
    rw [isPuzzleSolvedGlobally] at hglob
    rw [hglob]
    rfl
  have hkeys1 : hasGlobalKey { s2 with solves := s2.solves ++ [(pid, q)] }
      (branchDoneKey puzzle.branch) = false := by
    rw [hbr]
    exact hflag
  have hbc : branchCompletionStep { s2 with solves := s2.solves ++ [(pid, q)] } puzzle true
      = (true, setGlobalKey { s2 with solves := s2.solves ++ [(pid, q)] }
          (branchDoneKey puzzle.branch)) := by
    unfold branchCompletionStep
    rw [if_pos (by rw [hstep]; simp), if_neg (by rw [hkeys1]; simp)]
  unfold submitCompletesBranch
  rw [postSubmit_correct s2 pid q ans puzzle hq hc]
  simp only [hres, hbc]
  obtain ⟨base, hbase, hbrb, _⟩ := getPuzzleWithOverrides_base q s2 puzzle hq
  rw [hbase]
  simp [List.any_eq_true]
  rw [hbrb, hbr]


theorem likeDoneKey_branchDoneKey (b : Branch) : likeDoneKey (branchDoneKey b) = true := by
  cases b <;> decide

theorem parse_branchDoneKey (b : Branch) :
    BRANCH_ORDER.find? (fun b2 => branchDoneKey b2 == branchDoneKey b) = some b := by
  cases b <;> decide

theorem setGlobalKey_goodKeys (s : DbState) (b : Branch)
    (h : GoodKeys s.globalKeys) :
    GoodKeys (setGlobalKey s (branchDoneKey b)).globalKeys := by
  unfold setGlobalKey
  split
  · exact h
  · next hcon =>
    constructor
    · rw [List.nodup_append]
      refine ⟨h.1, List.nodup_singleton _, ?_⟩
      intro a ha hb2
      rw [List.mem_singleton] at hb2
      subst hb2
      exact hcon (List.elem_iff.mpr ha)
    · intro k2 hk2
      rcases List.mem_append.mp hk2 with h2 | h2
      · exact h.2 k2 h2
      · exact ⟨b, List.mem_singleton.mp h2⟩

theorem reachable_goodKeys (s : DbState) (h : Reachable s) : GoodKeys s.globalKeys := by
  induction h with
  | init => exact ⟨List.nodup_nil, by simp [initialState]⟩
  | step pid q ans hr ih =>
    rename_i st
    rcases postSubmit_state st pid q ans with hs | ⟨puzzle, hq, hs⟩
    · rw [hs]
      exact ih
    · rw [hs]
      rcases branchCompletionStep_state (recordSolve st pid q).2 puzzle
          (recordSolve st pid q).1.isFirst with h2 | ⟨_, h2⟩
      · rw [h2, recordSolve_globalKeys]
        exact ih
      · rw [h2]
        have ih2 : GoodKeys ((recordSolve st pid q).2).globalKeys := by
          rw [recordSolve_globalKeys]
          exact ih
        exact setGlobalKey_goodKeys _ puzzle.branch ih2

theorem countDone_eq_length (keys : List String)
    (h : ∀ k ∈ keys, ∃ b, k = branchDoneKey b) :
    (keys.filter likeDoneKey).length = keys.length := by
  rw [List.filter_eq_self.mpr]
  intro k hk
  obtain ⟨b, rfl⟩ := h k hk
  exact likeDoneKey_branchDoneKey b

theorem parse_length (keys : List String)
    (h : ∀ k ∈ keys, ∃ b, k = branchDoneKey b) :
    (keys.filterMap (fun k => BRANCH_ORDER.find? (fun b2 => branchDoneKey b2 == k))).length
      = keys.length := by
  induction keys with
  | nil => rfl
  | cons k t ih =>
    obtain ⟨b, rfl⟩ := h k (List.mem_cons_self _ _)
    rw [List.filterMap_cons]
    simp only [parse_branchDoneKey]
    rw [List.length_cons, List.length_cons,
      ih (fun k2 hk2 => h k2 (List.mem_cons_of_mem _ hk2))]

theorem branchDoneKey_injective : Function.Injective branchDoneKey := by
  intro a b hab
  cases a <;> cases b <;> first | rfl | exact absurd hab (by decide)

theorem flagCount_eq_length (keys : List String) (hnd : keys.Nodup)
    (h : ∀ k ∈ keys, ∃ b, k = branchDoneKey b) :
    (BRANCH_ORDER.filter (fun b => keys.contains (branchDoneKey b))).length = keys.length := by
  rw [branchOrder_filter_card]
  have himg : (Finset.univ.filter
        (fun b => (keys.contains (branchDoneKey b)) = true)).image branchDoneKey
      = keys.toFinset := by
    ext k
    simp only [Finset.mem_image, Finset.mem_filter, Finset.mem_univ, true_and,
      List.mem_toFinset]
    constructor
    · rintro ⟨b, hb, rfl⟩
      exact List.elem_iff.mp hb
    · intro hk
      obtain ⟨b, rfl⟩ := h k hk
      exact ⟨b, List.elem_iff.mpr hk, rfl⟩
  calc (Finset.univ.filter (fun b => (keys.contains (branchDoneKey b)) = true)).card
      = ((Finset.univ.filter
          (fun b => (keys.contains (branchDoneKey b)) = true)).image branchDoneKey).card :=
        (Finset.card_image_of_injective _ branchDoneKey_injective).symm
    _ = keys.toFinset.card := by rw [himg]
    _ = keys.length := by rw [List.card_toFinset, List.dedup_eq_self.mpr hnd]

theorem reachable_counts (s : DbState) (h : Reachable s) :
    countDoneKeys s = branchFlagCount s ∧ (getCompletedBranches s).length = branchFlagCount s := by
  obtain ⟨hnd, himg⟩ := reachable_goodKeys s h
  have h3 : branchFlagCount s = s.globalKeys.length := flagCount_eq_length _ hnd himg
  constructor
  · rw [h3]
    exact countDone_eq_length _ himg
  · rw [h3]
    exact parse_length _ himg

/-- C6: at every submit-reachable state the submit-route count
`countDoneKeys` equals the number of branches with Completion Flag set, and
the `/api/status` hub/vault booleans are true exactly when that count reaches
2 resp. 4 — recomputed from the flags, whatever order branches completed in. -/
theorem C6_unlock_thresholds (s : DbState) (h : Reachable s) :
    countDoneKeys s = branchFlagCount s ∧
    ((apiStatus s).hubUnlocked = true ↔ 2 ≤ branchFlagCount s) ∧
    ((apiStatus s).metaUnlocked = true ↔ 4 ≤ branchFlagCount s) := by
  obtain ⟨h1, h2⟩ := reachable_counts s h
  refine ⟨h1, ?_, ?_⟩
  · show decide ((getCompletedBranches s).length ≥ 2) = true ↔ _
    rw [decide_eq_true_eq, h2]
  · show decide ((getCompletedBranches s).length ≥ 4) = true ↔ _
    rw [decide_eq_true_eq, h2]


/-- Witness for C5: with the `F` flag already set a repeated final-step solve
fires no event; on a fresh database the first `GRAPES` submission to puzzle 3
fires the `F` branch-completed event. -/
theorem C5_witness :
    countBranchCompletions { initialState with globalKeys := ["F_DONE"] } Branch.F
      [{ participantId := "p", puzzleId := 3, answer := "GRAPES" }] = 0 ∧
    countBranchCompletions { initialState with globalKeys := ["F_DONE"] } Branch.F
      [{ participantId := "p", puzzleId := 3, answer := "GRAPES" }] ≤ 1 ∧
    submitCompletesBranch initialState
      { participantId := "alice", puzzleId := 3, answer := "GRAPES" } Branch.F = true := by
  have h := C5_branch_completion_exactly_once
    { initialState with globalKeys := ["F_DONE"] } initialState Branch.F
    [{ participantId := "p", puzzleId := 3, answer := "GRAPES" }]
    "alice" 3 "GRAPES"
    { id := 3, branch := Branch.F, step := 3, title := "Food Puzzle 3",
      location_hint := "Drink Cooler",
      prompt := "Riddle: \"Twelve at midnight, sweet and round, a Spanish tradition that astounds.\"",
      answer := "GRAPES" }
  exact ⟨h.2.1 (by decide), h.1,
    h.2.2 (by decide) (by decide) (by decide) (by decide) (by decide) (by decide)⟩

/-- Witness for C6 at the initial state. -/
theorem C6_witness :
    countDoneKeys initialState = branchFlagCount initialState ∧
    ((apiStatus initialState).hubUnlocked = true ↔ 2 ≤ branchFlagCount initialState) ∧
    ((apiStatus initialState).metaUnlocked = true ↔ 4 ≤ branchFlagCount initialState) :=
  C6_unlock_thresholds initialState Reachable.init

/-- C1 evidence (code bug): on a fresh database, puzzle 2 (branch `F`,
step 2) is locked by the `GET /p/:id` prerequisite check — its step-1
prerequisite has no global solve — yet `POST /p/2/submit` with the correct
answer `"FOOD"` is accepted: the outcome is the `Correct` page with a first
solve, and a Solve row is recorded.  The submit handler never performs the
prerequisite check that the spec requires to reject the submission as
`Locked` before answer-checking. -/
theorem C1_locked_submit_recorded :
    (getPuzzle 2).map (puzzleUnlocked initialState) = some false ∧
    isPuzzleSolvedGlobally initialState 1 = false ∧
    (postSubmit initialState "alice" 2 "FOOD").1
      = SubmitOutcome.correct { success := true, isFirst := true, alreadySolved := false }
          false 0 false false ∧
    (postSubmit initialState "alice" 2 "FOOD").2.solves = [("alice", 2)] := by
  refine ⟨?_, by decide, by decide, by decide⟩
  simp [getPuzzle, PUZZULAR, List.find?, puzzleUnlocked, getPuzzleByBranchStep,
    getGlobalSolvedPuzzleIds, initialState]

end MidnightVault
